import Mathlib

/-!
Shallow embedding of the doubling-speed tracker (src/src/App.tsx).

Modelling conventions:
* Calendar-day strings "YYYY-MM-DD" always parse (via `new Date`) to UTC
  midnights, so `getTime()` differences are whole multiples of a day and the
  sort comparator only compares those timestamps.  Dates are therefore
  modelled as `Int` (days since the epoch).
* Numeric sample values are modelled as `Rat` (ideal arithmetic in place of
  JS doubles); the transcendental part of the estimator (`Math.log2`) and its
  display rounding (`toFixed(1)`) are modelled over `Real`.
* The value-entry form state `newValue : string` only matters through the
  guard `newValue === ""` and the parsed number `parseFloat(newValue)`; it is
  modelled as `Option Rat` (`none` for the empty string).
* `selectedMetric : number | null` is modelled as `Option Int`; the guard
  `!selectedMetric` is falsy exactly on `null` and `0`, i.e. on `none` and
  `some 0`.
* React state setters are modelled by returning the new metric list.
-/

namespace DoublingTracker

/-- Source `interface MetricValue { date: string; value: number }`. -/
structure MetricValue where
  date : Int
  value : Rat
deriving DecidableEq

/-- Source `interface Metric { id; name; values; baseValue; lastUpdated }`. -/
structure Metric where
  id : Int
  name : String
  values : List MetricValue
  baseValue : Rat
  lastUpdated : Option Int
deriving DecidableEq

/-- Source `interface DoublingRate`.  The source stores the three fields as
display strings (`toFixed(1)` output and a locale date); here they are kept
as the numbers those strings render: the two rounded quotients, and the
projected timestamp in days. -/
structure DoublingRate where
  daysPerDoubling : Real
  monthsPerDoubling : Real
  projectedNextDouble : Real

/-- The sort comparator `(a, b) => new Date(a.date).getTime() - new Date(b.date).getTime()`:
ascending by date. -/
def dateLe (a b : MetricValue) : Bool := decide (a.date ≤ b.date)

/-- Rounding to one decimal, as `x.toFixed(1)` displays (round half away from
zero; all quantities rounded in this program are nonnegative, where this is
round half up). -/
noncomputable def toFixed1 (x : Real) : Real := (round (10 * x) : Int) / 10

/-- Source `calculateDoublingRate` (App.tsx lines 70-96), translated clause by
clause: fewer than two samples gives "Need more data"; `totalGrowth` is
`lastEntry.value / firstEntry.value`; growth below 2 gives "Not doubled yet";
otherwise `timeInDays` is the calendar-day difference, `doublings` is
`Math.log2(totalGrowth)`, `daysPerDoubling = timeInDays / doublings`, and the
result carries `daysPerDoubling.toFixed(1)`, `(daysPerDoubling/30).toFixed(1)`
and the timestamp `lastEntry.date + daysPerDoubling` days. -/
noncomputable def calculateDoublingRate : List MetricValue → String ⊕ DoublingRate
  | [] => Sum.inl "Need more data"
  | [_] => Sum.inl "Need more data"
  | firstEntry :: v :: vs =>
    let lastEntry := (v :: vs).getLast (List.cons_ne_nil v vs)
    let totalGrowth : Rat := lastEntry.value / firstEntry.value
    if totalGrowth < 2 then Sum.inl "Not doubled yet"
    else
      let timeInDays : Real := ((lastEntry.date - firstEntry.date : Int) : Real)
      let doublings : Real := Real.logb 2 (totalGrowth : Real)
      let daysPerDoubling : Real := timeInDays / doublings
      Sum.inr
        { daysPerDoubling := toFixed1 daysPerDoubling
          monthsPerDoubling := toFixed1 (daysPerDoubling / 30)
          projectedNextDouble := (lastEntry.date : Real) + daysPerDoubling }

/-- The default metric set the component starts from (App.tsx lines 34-38). -/
def initialMetrics : List Metric :=
  [{ id := 1, name := "Followers", values := [], baseValue := 100, lastUpdated := none },
   { id := 2, name := "Revenue", values := [], baseValue := 1000, lastUpdated := none },
   { id := 3, name := "Customers", values := [], baseValue := 10, lastUpdated := none }]

/-- The guard `newMetricName.trim() === ""` of `addMetric`: a string trims to
the empty string exactly when every one of its characters is whitespace
(vacuously including the empty string).  Stated structurally over the
character list so that it computes. -/
def trimsToEmpty (s : String) : Bool := s.data.all Char.isWhitespace

/-- Source `addMetric` (App.tsx lines 110-126): no-op on a name that trims to
empty, otherwise appends a metric with id `Math.max(0, ...ids) + 1`, empty
values and null `lastUpdated`. -/
def addMetric (metrics : List Metric) (newMetricName : String) (newBaseValue : Rat) :
    List Metric :=
  if trimsToEmpty newMetricName then metrics
  else
    metrics ++
      [{ id := (metrics.map (fun m => m.id)).foldl max 0 + 1
         name := newMetricName
         values := []
         baseValue := newBaseValue
         lastUpdated := none }]

/-- The per-metric update performed inside `addValueEntry`'s `metrics.map`
(App.tsx lines 132-151): on the selected metric, push the new sample (dated
today) and re-sort by date with JavaScript's stable `Array.prototype.sort`,
and set `lastUpdated` to today; every other metric is returned unchanged. -/
def updateMetric (selectedMetric : Int) (value : Rat) (today : Int) (metric : Metric) :
    Metric :=
  if metric.id = selectedMetric then
    { metric with
      values := (metric.values ++ [{ date := today, value := value : MetricValue }]).mergeSort dateLe
      lastUpdated := some today }
  else metric

/-- Source `addValueEntry` (App.tsx lines 129-155).  The guard
`if (!selectedMetric || newValue === "") return` makes the call a no-op when
no metric is selected, when the selected id is the falsy `0`, or when the
value field is empty; otherwise each metric is mapped through
`updateMetric`. -/
def addValueEntry (metrics : List Metric) (selectedMetric : Option Int)
    (newValue : Option Rat) (today : Int) : List Metric :=
  match selectedMetric, newValue with
  | some tid, some v =>
    if tid = 0 then metrics
    else metrics.map (updateMetric tid v today)
  | _, _ => metrics

/-- Source `deleteMetric` (App.tsx lines 158-160). -/
def deleteMetric (metrics : List Metric) (id : Int) : List Metric :=
  metrics.filter (fun metric => metric.id ≠ id)

/-! ### Helper lemmas about the sort comparator and the store -/

theorem dateLe_trans : ∀ (a b c : MetricValue), dateLe a b → dateLe b c → dateLe a c := by
  intro a b c hab hbc
  simp only [dateLe, decide_eq_true_eq] at hab hbc ⊢
  omega

theorem dateLe_total : ∀ (a b : MetricValue), dateLe a b || dateLe b a := by
  intro a b
  simp only [dateLe]
  by_cases h : a.date ≤ b.date
  · simp [h]
  · simp only [Bool.or_eq_true, decide_eq_true_eq]
    omega

theorem le_foldl_max (l : List Int) (a : Int) : a ≤ l.foldl max a := by
  induction l generalizing a with
  | nil => exact le_refl a
  | cons x t ih =>
    simp only [List.foldl_cons]
    exact le_trans (le_max_left a x) (ih (max a x))

theorem mem_le_foldl_max {x : Int} {l : List Int} (h : x ∈ l) (a : Int) :
    x ≤ l.foldl max a := by
  induction l generalizing a with
  | nil => cases h
  | cons y t ih =>
    simp only [List.foldl_cons]
    rcases List.mem_cons.1 h with rfl | h2
    · exact le_trans (le_max_right a x) (le_foldl_max t (max a x))
    · exact ih h2 (max a y)

/-- Stability of the stable sort, phrased through filters: sorting does not
reorder the elements of any class on which the comparator always holds. -/
theorem filter_mergeSort_dateLe (p : MetricValue → Bool)
    (hp : ∀ a b, p a = true → p b = true → dateLe a b = true) (l : List MetricValue) :
    (l.mergeSort dateLe).filter p = l.filter p := by
  have hpair : (l.filter p).Pairwise (fun a b => dateLe a b = true) := by
    apply List.pairwise_of_forall_mem_list
    intro a ha b hb
    exact hp a b (List.mem_filter.1 ha).2 (List.mem_filter.1 hb).2
  have hsub : List.Sublist (l.filter p) (l.mergeSort dateLe) :=
    List.sublist_mergeSort dateLe_trans dateLe_total hpair (List.filter_sublist l)
  have h1 : List.Sublist (l.filter p) ((l.mergeSort dateLe).filter p) := by
    have h2 := hsub.filter p
    rwa [List.filter_eq_self.2 (fun a ha => (List.mem_filter.1 ha).2)] at h2
  have hlen : ((l.mergeSort dateLe).filter p).length = (l.filter p).length :=
    ((List.mergeSort_perm l dateLe).filter p).length_eq
  exact (h1.eq_of_length hlen.symm).symm

theorem addValueEntry_some (metrics : List Metric) (tid : Int) (v : Rat) (today : Int)
    (htid : tid ≠ 0) :
    addValueEntry metrics (some tid) (some v) today =
      metrics.map (updateMetric tid v today) := by
  simp [addValueEntry, htid]

theorem length_addValueEntry (metrics : List Metric) (selectedMetric : Option Int)
    (newValue : Option Rat) (today : Int) :
    (addValueEntry metrics selectedMetric newValue today).length = metrics.length := by
  unfold addValueEntry
  cases selectedMetric with
  | none => rfl
  | some tid =>
    cases newValue with
    | none => rfl
    | some v => by_cases h : tid = 0 <;> simp [h]

/-! ### Claims about the metric store -/

/-- C4: a metric creation (`addMetric`) whose name does not trim to empty
appends a new metric whose id is `1 + max(existing ids, default 0)`, and that
id is strictly greater than every id already present in the store. -/
theorem addMetric_fresh_id (metrics : List Metric) (name : String) (baseValue : Rat)
    (h : ¬ trimsToEmpty name) :
    ∃ nm, addMetric metrics name baseValue = metrics ++ [nm] ∧
      nm.id = (metrics.map (fun m => m.id)).foldl max 0 + 1 ∧
      ∀ m ∈ metrics, m.id < nm.id := by
  refine ⟨{ id := (metrics.map (fun m => m.id)).foldl max 0 + 1, name := name,
            values := [], baseValue := baseValue, lastUpdated := none }, ?_, rfl, ?_⟩
  · simp [addMetric, h]
  · intro m hm
    have h2 : m.id ≤ (metrics.map (fun m => m.id)).foldl max 0 :=
      mem_le_foldl_max (List.mem_map_of_mem (fun m => m.id) hm) 0
    show m.id < (metrics.map (fun m => m.id)).foldl max 0 + 1
    omega

theorem addMetric_fresh_id_witness :
    ¬ trimsToEmpty "Users" ∧
    ∃ nm, addMetric initialMetrics "Users" 50 = initialMetrics ++ [nm] ∧
      nm.id = (initialMetrics.map (fun m => m.id)).foldl max 0 + 1 ∧
      ∀ m ∈ initialMetrics, m.id < nm.id :=
  ⟨by decide, addMetric_fresh_id initialMetrics "Users" 50 (by decide)⟩

/-- C8: `addMetric` on a name that trims to empty is a no-op leaving the store
unchanged, and every successfully created metric starts with an empty sample
sequence and an absent `lastUpdated`. -/
theorem addMetric_empty_name_noop_and_fresh_metric_init (metrics : List Metric)
    (name : String) (baseValue : Rat) :
    (trimsToEmpty name → addMetric metrics name baseValue = metrics) ∧
    (¬ trimsToEmpty name →
      ∃ nm, addMetric metrics name baseValue = metrics ++ [nm] ∧
        nm.values = [] ∧ nm.lastUpdated = none) := by
  constructor
  · intro h
    simp [addMetric, h]
  · intro h
    exact ⟨{ id := (metrics.map (fun m => m.id)).foldl max 0 + 1, name := name,
             values := [], baseValue := baseValue, lastUpdated := none },
           by simp [addMetric, h], rfl, rfl⟩

theorem addMetric_empty_name_noop_and_fresh_metric_init_witness :
    (addMetric initialMetrics "  " 7 = initialMetrics) ∧
    (∃ nm, addMetric initialMetrics "Users" 50 = initialMetrics ++ [nm] ∧
      nm.values = [] ∧ nm.lastUpdated = none) :=
  ⟨(addMetric_empty_name_noop_and_fresh_metric_init initialMetrics "  " 7).1 (by decide),
   (addMetric_empty_name_noop_and_fresh_metric_init initialMetrics "Users" 50).2 (by decide)⟩

/-- C9: on a store containing a metric with id 0, `addValueEntry` targeting
metric id 0 is a no-op leaving the store unchanged, because the guard
`if (!selectedMetric ...)` treats the id 0 as falsy; such a metric can never
receive samples. -/
theorem addValueEntry_id_zero_noop (metrics : List Metric) (newValue : Option Rat)
    (today : Int) (_hmem : ∃ m ∈ metrics, m.id = 0) :
    addValueEntry metrics (some 0) newValue today = metrics := by
  cases newValue <;> simp [addValueEntry]

theorem addValueEntry_id_zero_noop_witness :
    addValueEntry [{ id := 0, name := "Zero", values := [], baseValue := 1,
                     lastUpdated := none }] (some 0) (some 5) 19000 =
      [{ id := 0, name := "Zero", values := [], baseValue := 1, lastUpdated := none }] :=
  addValueEntry_id_zero_noop _ (some 5) 19000
    ⟨{ id := 0, name := "Zero", values := [], baseValue := 1, lastUpdated := none },
     by simp, rfl⟩

/-- C5 counterexample: appending against an id that references no metric in
the store does not fail with any error value; the call silently returns the
store unchanged (the source's `metrics.map` matches no metric and the
function body signals nothing). -/
theorem addValueEntry_unknown_id_counterexample :
    addValueEntry initialMetrics (some 99) (some 5) 19000 = initialMetrics := by
  rw [addValueEntry_some initialMetrics 99 5 19000 (by decide)]
  simp only [initialMetrics, List.map_cons, List.map_nil, updateMetric]
  norm_num

/-- C5 amended: `addValueEntry` targeting a metric id that does not reference
an existing metric is a silent no-op that leaves the store unchanged; the
code produces no `NotFound` (or any other) error. -/
theorem addValueEntry_unknown_id_noop (metrics : List Metric) (tid : Int) (v : Rat)
    (today : Int) (h : ∀ m ∈ metrics, m.id ≠ tid) :
    addValueEntry metrics (some tid) (some v) today = metrics := by
  by_cases h0 : tid = 0
  · subst h0
    simp [addValueEntry]
  · rw [addValueEntry_some metrics tid v today h0]
    have hid : ∀ m ∈ metrics, updateMetric tid v today m = m := by
      intro m hm
      simp [updateMetric, h m hm]
    rw [List.map_congr_left hid, List.map_id']

theorem addValueEntry_unknown_id_noop_witness :
    addValueEntry initialMetrics (some 42) (some 5) 19000 = initialMetrics :=
  addValueEntry_unknown_id_noop initialMetrics 42 5 19000 (by decide)

/-- C10 (frame effect): an `addValueEntry` call targeting one metric id keeps
the store's length and relative order, and every metric at a position whose
id differs from the target is completely unchanged. -/
theorem addValueEntry_frame (metrics : List Metric) (tid : Int) (newValue : Option Rat)
    (today : Int) :
    (addValueEntry metrics (some tid) newValue today).length = metrics.length ∧
    ∀ (i : Nat) (hi : i < metrics.length),
      (metrics.get ⟨i, hi⟩).id ≠ tid →
      (addValueEntry metrics (some tid) newValue today).get
          ⟨i, by rw [length_addValueEntry]; exact hi⟩ = metrics.get ⟨i, hi⟩ := by
  refine ⟨length_addValueEntry metrics (some tid) newValue today, ?_⟩
  intro i hi hne
  cases newValue with
  | none => rfl
  | some v =>
    by_cases h0 : tid = 0
    · subst h0
      show (addValueEntry metrics (some 0) (some v) today).get _ = metrics.get ⟨i, hi⟩
      have hseq : addValueEntry metrics (some 0) (some v) today = metrics := by
        simp [addValueEntry]
      simp only [List.get_eq_getElem]
      congr 1
    · have hmap := addValueEntry_some metrics tid v today h0
      simp only [List.get_eq_getElem] at hne ⊢
      simp only [hmap, List.getElem_map]
      simp [updateMetric, hne]

theorem addValueEntry_frame_witness :
    (addValueEntry initialMetrics (some 1) (some 5) 19000).length =
      initialMetrics.length ∧
    ∀ (i : Nat) (hi : i < initialMetrics.length),
      (initialMetrics.get ⟨i, hi⟩).id ≠ 1 →
      (addValueEntry initialMetrics (some 1) (some 5) 19000).get
          ⟨i, by rw [length_addValueEntry]; exact hi⟩ = initialMetrics.get ⟨i, hi⟩ :=
  addValueEntry_frame initialMetrics 1 (some 5) 19000

/-- C3: after an `addValueEntry` call the targeted metric's sample sequence is
sorted ascending by date, whatever order dates were inserted in (the prior
sequence need not even be sorted), and ties are stable: for every date `k`,
the subsequence of samples dated `k` is the old subsequence dated `k` with
the new sample appended after it, so same-date samples keep their relative
insertion order across any sequence of appends. -/
theorem addValueEntry_sorted_and_stable (metrics : List Metric) (tid : Int) (v : Rat)
    (today : Int) (htid : tid ≠ 0) (i : Nat) (hi : i < metrics.length)
    (hid : (metrics.get ⟨i, hi⟩).id = tid) :
    ((addValueEntry metrics (some tid) (some v) today).get
        ⟨i, by rw [length_addValueEntry]; exact hi⟩).values.Pairwise
      (fun a b => a.date ≤ b.date) ∧
    ∀ k : Int,
      ((addValueEntry metrics (some tid) (some v) today).get
          ⟨i, by rw [length_addValueEntry]; exact hi⟩).values.filter
          (fun s => s.date = k) =
        (metrics.get ⟨i, hi⟩).values.filter (fun s => s.date = k) ++
          (if today = k then [{ date := today, value := v }] else []) := by
  have hmap := addValueEntry_some metrics tid v today htid
  have hget : (addValueEntry metrics (some tid) (some v) today).get
      ⟨i, by rw [length_addValueEntry]; exact hi⟩ =
      updateMetric tid v today (metrics.get ⟨i, hi⟩) := by
    simp only [List.get_eq_getElem, hmap, List.getElem_map]
  rw [hget]
  simp only [updateMetric, hid, if_pos]
  constructor
  · have hs := List.sorted_mergeSort dateLe_trans dateLe_total
      ((metrics.get ⟨i, hi⟩).values ++ [{ date := today, value := v }])
    exact hs.imp (fun hab => of_decide_eq_true hab)
  · intro k
    rw [filter_mergeSort_dateLe (fun s => decide (s.date = k))
        (fun a b ha hb => by
          simp only [decide_eq_true_eq] at ha hb
          simp only [dateLe, ha, hb, decide_eq_true_eq, le_refl]),
      List.filter_append]
    by_cases hk : today = k <;> simp [hk]

theorem addValueEntry_sorted_and_stable_witness :
    ((addValueEntry initialMetrics (some 1) (some 5) 19000).get
        ⟨0, by rw [length_addValueEntry]; decide⟩).values.Pairwise
      (fun a b => a.date ≤ b.date) ∧
    ∀ k : Int,
      ((addValueEntry initialMetrics (some 1) (some 5) 19000).get
          ⟨0, by rw [length_addValueEntry]; decide⟩).values.filter
          (fun s => s.date = k) =
        (initialMetrics.get ⟨0, by decide⟩).values.filter (fun s => s.date = k) ++
          (if (19000 : Int) = k then [{ date := 19000, value := 5 }] else []) :=
  addValueEntry_sorted_and_stable initialMetrics 1 5 19000 (by decide) 0 (by decide)
    (by decide)

/-- C7: `addValueEntry` preserves the invariant that `lastUpdated` is absent
exactly when the metric has no samples, and after a successful append of a
sample dated `d` the targeted metric's `lastUpdated` equals `d`, the date of
the most recently appended sample. -/
theorem addValueEntry_lastUpdated (metrics : List Metric) (selectedMetric : Option Int)
    (newValue : Option Rat) (today : Int)
    (hinv : ∀ m ∈ metrics, (m.lastUpdated = none ↔ m.values = [])) :
    (∀ m ∈ addValueEntry metrics selectedMetric newValue today,
      (m.lastUpdated = none ↔ m.values = [])) ∧
    (∀ tid v, selectedMetric = some tid → newValue = some v → tid ≠ 0 →
      ∀ (i : Nat) (hi : i < metrics.length), (metrics.get ⟨i, hi⟩).id = tid →
        ((addValueEntry metrics selectedMetric newValue today).get
            ⟨i, by rw [length_addValueEntry]; exact hi⟩).lastUpdated = some today) := by
  constructor
  · intro m hm
    rcases selectedMetric with _ | tid
    · exact hinv m hm
    rcases newValue with _ | v
    · exact hinv m hm
    by_cases h0 : tid = 0
    · subst h0
      simp only [addValueEntry, if_pos rfl] at hm
      exact hinv m hm
    · rw [addValueEntry_some metrics tid v today h0] at hm
      rcases List.mem_map.1 hm with ⟨m0, hm0, rfl⟩
      by_cases hm0id : m0.id = tid
      · simp only [updateMetric, hm0id, if_pos]
        have hlen2 : ((m0.values ++ [{ date := today, value := v : MetricValue }]).mergeSort
            dateLe).length = m0.values.length + 1 := by simp
        constructor
        · intro hcontra
          exact absurd hcontra (Option.some_ne_none today)
        · intro hcontra
          rw [hcontra] at hlen2
          simp at hlen2
      · simp only [updateMetric, if_neg hm0id]
        exact hinv m0 hm0
  · intro tid v hsel hv h0 i hi hidm
    subst hsel
    subst hv
    have hget : (addValueEntry metrics (some tid) (some v) today).get
        ⟨i, by rw [length_addValueEntry]; exact hi⟩ =
        updateMetric tid v today (metrics.get ⟨i, hi⟩) := by
      simp only [List.get_eq_getElem, addValueEntry_some metrics tid v today h0,
        List.getElem_map]
    rw [hget]
    simp only [List.get_eq_getElem] at hidm
    simp [updateMetric, hidm]

theorem addValueEntry_lastUpdated_witness :
    (∀ m ∈ addValueEntry initialMetrics (some 2) (some 12) 19003,
      (m.lastUpdated = none ↔ m.values = [])) ∧
    (∀ tid v, (some 2 : Option Int) = some tid → (some 12 : Option Rat) = some v →
      tid ≠ 0 →
      ∀ (i : Nat) (hi : i < initialMetrics.length),
        (initialMetrics.get ⟨i, hi⟩).id = tid →
        ((addValueEntry initialMetrics (some 2) (some 12) 19003).get
            ⟨i, by rw [length_addValueEntry]; exact hi⟩).lastUpdated = some 19003) :=
  addValueEntry_lastUpdated initialMetrics (some 2) (some 12) 19003 (by decide)

/-! ### Claims about the doubling-rate estimator -/

/-- On a sequence of at least two samples, `calculateDoublingRate` reduces to
the growth test between the first and last entries. -/
theorem calculateDoublingRate_eq_of_head_getLast (values : List MetricValue)
    (firstEntry lastEntry : MetricValue)
    (hf : values.head? = some firstEntry) (hl : values.getLast? = some lastEntry)
    (hlen : 2 ≤ values.length) :
    calculateDoublingRate values =
      (if lastEntry.value / firstEntry.value < 2 then Sum.inl "Not doubled yet"
       else
        Sum.inr
          { daysPerDoubling := toFixed1 (((lastEntry.date - firstEntry.date : Int) : Real) /
              Real.logb 2 ((lastEntry.value / firstEntry.value : Rat) : Real))
            monthsPerDoubling :=
              toFixed1 ((((lastEntry.date - firstEntry.date : Int) : Real) /
                Real.logb 2 ((lastEntry.value / firstEntry.value : Rat) : Real)) / 30)
            projectedNextDouble := (lastEntry.date : Real) +
              ((lastEntry.date - firstEntry.date : Int) : Real) /
                Real.logb 2 ((lastEntry.value / firstEntry.value : Rat) : Real) }) := by
  cases values with
  | nil => cases hf
  | cons a t =>
    cases t with
    | nil => simp at hlen
    | cons b t2 =>
      simp only [List.head?_cons, Option.some.injEq] at hf
      subst hf
      have hlast : (b :: t2).getLast (List.cons_ne_nil b t2) = lastEntry := by
        rw [List.getLast?_cons_cons,
          List.getLast?_eq_getLast (b :: t2) (List.cons_ne_nil b t2),
          Option.some.injEq] at hl
        exact hl
      simp only [calculateDoublingRate]
      rw [hlast]

/-- C2: fewer than two samples gives the "insufficient data" status
("Need more data"); at least two samples with a well-defined ratio of last to
first value strictly below 2 gives the "not yet doubled" status
("Not doubled yet"); a ratio of exactly 2 gives a numeric `DoublingRate`,
not a status. -/
theorem calculateDoublingRate_statuses (values : List MetricValue) :
    (values.length < 2 → calculateDoublingRate values = Sum.inl "Need more data") ∧
    (∀ firstEntry lastEntry : MetricValue, values.head? = some firstEntry →
      values.getLast? = some lastEntry → 2 ≤ values.length →
      firstEntry.value ≠ 0 → lastEntry.value / firstEntry.value < 2 →
      calculateDoublingRate values = Sum.inl "Not doubled yet") ∧
    (∀ firstEntry lastEntry : MetricValue, values.head? = some firstEntry →
      values.getLast? = some lastEntry → 2 ≤ values.length →
      lastEntry.value / firstEntry.value = 2 →
      ∃ rate, calculateDoublingRate values = Sum.inr rate) := by
  refine ⟨?_, ?_, ?_⟩
  · intro hlen
    cases values with
    | nil => rfl
    | cons a t =>
      cases t with
      | nil => rfl
      | cons b t2 =>
        simp only [List.length_cons] at hlen
        omega
  · intro firstEntry lastEntry hf hl hlen _hf0 hratio
    rw [calculateDoublingRate_eq_of_head_getLast values firstEntry lastEntry hf hl hlen,
      if_pos hratio]
  · intro firstEntry lastEntry hf hl hlen hratio
    rw [calculateDoublingRate_eq_of_head_getLast values firstEntry lastEntry hf hl hlen,
      if_neg (by rw [hratio]; exact lt_irrefl 2)]
    exact ⟨_, rfl⟩

theorem calculateDoublingRate_statuses_witness :
    calculateDoublingRate [] = Sum.inl "Need more data" ∧
    calculateDoublingRate [{ date := 0, value := 100 }, { date := 10, value := 150 }] =
      Sum.inl "Not doubled yet" ∧
    ∃ rate,
      calculateDoublingRate [{ date := 0, value := 100 }, { date := 31, value := 200 }] =
        Sum.inr rate :=
  ⟨(calculateDoublingRate_statuses []).1 (by decide),
   (calculateDoublingRate_statuses _).2.1 { date := 0, value := 100 }
     { date := 10, value := 150 } rfl rfl (by decide) (by norm_num) (by norm_num),
   (calculateDoublingRate_statuses _).2.2 { date := 0, value := 100 }
     { date := 31, value := 200 } rfl rfl (by decide) (by norm_num)⟩

/-- C1: on at least two samples with positive first value and total growth at
least 2, the estimator's divisor `log2(totalGrowth)` is at least 1 (so the
division never divides by zero), and the result is `daysPerDoubling =
elapsedDays / log2(totalGrowth)` rounded to 1 decimal, `monthsPerDoubling =
daysPerDoubling / 30` rounded to 1 decimal, and a projected next-double
timestamp of `last.date` plus `daysPerDoubling` days. -/
theorem calculateDoublingRate_estimate (values : List MetricValue)
    (firstEntry lastEntry : MetricValue)
    (hf : values.head? = some firstEntry) (hl : values.getLast? = some lastEntry)
    (hlen : 2 ≤ values.length) (hpos : 0 < firstEntry.value)
    (hgrowth : 2 ≤ lastEntry.value / firstEntry.value) :
    1 ≤ Real.logb 2 ((lastEntry.value / firstEntry.value : Rat) : Real) ∧
    calculateDoublingRate values = Sum.inr
      { daysPerDoubling := toFixed1 (((lastEntry.date - firstEntry.date : Int) : Real) /
          Real.logb 2 ((lastEntry.value / firstEntry.value : Rat) : Real))
        monthsPerDoubling := toFixed1 ((((lastEntry.date - firstEntry.date : Int) : Real) /
          Real.logb 2 ((lastEntry.value / firstEntry.value : Rat) : Real)) / 30)
        projectedNextDouble := (lastEntry.date : Real) +
          ((lastEntry.date - firstEntry.date : Int) : Real) /
            Real.logb 2 ((lastEntry.value / firstEntry.value : Rat) : Real) } := by
  have hg2 : (2 : Real) ≤ ((lastEntry.value / firstEntry.value : Rat) : Real) := by
    exact_mod_cast hgrowth
  have hlogb : 1 ≤ Real.logb 2 ((lastEntry.value / firstEntry.value : Rat) : Real) := by
    calc (1 : Real) = Real.logb 2 2 := (Real.logb_self_eq_one (by norm_num)).symm
      _ ≤ _ := Real.logb_le_logb_of_le (by norm_num) (by norm_num) hg2
  refine ⟨hlogb, ?_⟩
  rw [calculateDoublingRate_eq_of_head_getLast values firstEntry lastEntry hf hl hlen,
    if_neg (not_lt.2 hgrowth)]

theorem calculateDoublingRate_estimate_witness :
    1 ≤ Real.logb 2 (((200 : Rat) / 100 : Rat) : Real) ∧
    calculateDoublingRate [{ date := 0, value := 100 }, { date := 31, value := 200 }] =
      Sum.inr
        { daysPerDoubling := toFixed1 ((((31 : Int) - 0 : Int) : Real) /
            Real.logb 2 (((200 : Rat) / 100 : Rat) : Real))
          monthsPerDoubling := toFixed1 (((((31 : Int) - 0 : Int) : Real) /
            Real.logb 2 (((200 : Rat) / 100 : Rat) : Real)) / 30)
          projectedNextDouble := ((31 : Int) : Real) +
            (((31 : Int) - 0 : Int) : Real) /
              Real.logb 2 (((200 : Rat) / 100 : Rat) : Real) } :=
  calculateDoublingRate_estimate
    [{ date := 0, value := 100 }, { date := 31, value := 200 }]
    { date := 0, value := 100 } { date := 31, value := 200 }
    rfl rfl (by decide) (by norm_num) (by norm_num)

/-- C6 counterexample: the source has no `InvalidInput` guard.  On a sequence
whose first value is negative (hence zero-or-negative) the estimator proceeds
through the normal growth test: here it returns the ordinary
"Not doubled yet" status instead of signalling any error. -/
theorem calculateDoublingRate_no_invalid_input_counterexample :
    calculateDoublingRate [{ date := 0, value := -100 }, { date := 10, value := 200 }] =
      Sum.inl "Not doubled yet" := by
  rw [calculateDoublingRate_eq_of_head_getLast
      [{ date := 0, value := -100 }, { date := 10, value := 200 }]
      { date := 0, value := -100 } { date := 10, value := 200 } rfl rfl (by decide),
    if_pos (by norm_num)]

/-- C6 amended: `calculateDoublingRate` does not guard against a non-positive
first value and never signals an `InvalidInput` error (no such value exists in
its result type); in particular, on a sequence of at least two samples with
negative first value and positive last value it simply returns the normal
"Not doubled yet" status, since the ratio is negative. -/
theorem calculateDoublingRate_negative_first (values : List MetricValue)
    (firstEntry lastEntry : MetricValue)
    (hf : values.head? = some firstEntry) (hl : values.getLast? = some lastEntry)
    (hlen : 2 ≤ values.length) (hneg : firstEntry.value < 0)
    (hpos : 0 < lastEntry.value) :
    calculateDoublingRate values = Sum.inl "Not doubled yet" := by
  rw [calculateDoublingRate_eq_of_head_getLast values firstEntry lastEntry hf hl hlen,
    if_pos (lt_trans (div_neg_of_pos_of_neg hpos hneg) (by norm_num))]

theorem calculateDoublingRate_negative_first_witness :
    calculateDoublingRate [{ date := 0, value := -50 }, { date := 7, value := 80 }] =
      Sum.inl "Not doubled yet" :=
  calculateDoublingRate_negative_first
    [{ date := 0, value := -50 }, { date := 7, value := 80 }]
    { date := 0, value := -50 } { date := 7, value := 80 }
    rfl rfl (by decide) (by norm_num) (by norm_num)

end DoublingTracker
